import Mathlib

/-!
Shallow embedding of the synthetic transactional-dataset generator
(distribution engine, base-transaction sampling, pattern injector,
orchestrator) together with proofs about the behaviour its specification
describes.

Modelling conventions:
* Machine floats are modelled as exact rationals (configuration values,
  supports, noise ratios) and exact reals (the distribution formulas,
  which involve real powers and the exponential function).
* The shared numpy pseudorandom stream is modelled as an infinite tape of
  rationals, `RStream := Nat -> Rat`.  Each primitive draw consumes one
  tape cell: a uniform draw in [0,1) is the fractional part of the cell, a
  Poisson draw is the (clamped) integer part — Poisson has support all of
  Nat, so an adversarial tape models every possible draw — and an index
  draw into a pool of size m is the integer part reduced mod m.
  Quantifying over all tapes quantifies over all possible random streams.
* The numpy array is modelled as a total function `Mat := Nat -> Nat -> Nat`,
  with the dimensions passed explicitly where the code reads them from
  the array shape.
* Python exceptions are modelled with Except / an Option String error
  component; python in-place mutation of the matrix is modelled by
  returning the matrix state reached when the exception is raised.
-/

/-- Infinite tape of rationals modelling the shared numpy random stream. -/
def RStream : Type := Nat → ℚ

/-- Advance the stream by k consumed draws. -/
def shiftS (s : RStream) (k : Nat) : RStream := fun n => s (n + k)

/-- Uniform draw in [0,1) extracted from one tape cell (np.random.random). -/
def unif (s : RStream) : ℚ := Int.fract (s 0)

/-- Index draw in [0, m) extracted from one tape cell. -/
def idxDraw (q : ℚ) (m : Nat) : Nat := (⌊q⌋).toNat % m

/-- Python int() applied to a float: truncation toward zero. -/
def pyTrunc (q : ℚ) : ℤ := if 0 ≤ q then ⌊q⌋ else -⌊-q⌋

/-- Binary transaction matrix, row index then column index. -/
def Mat : Type := Nat → Nat → Nat

/-- The all-zero matrix np.zeros. -/
def zeroMat : Mat := fun _ _ => 0

/-- Write value v at row t, column i (numpy element assignment). -/
def setCell (d : Mat) (t i v : Nat) : Mat :=
  fun a b => if a = t ∧ b = i then v else d a b

/-- Numpy column indexing for a (possibly negative) python integer index:
negative indices count from the end of axis 1. -/
def colIdx (numItems : Nat) (it : ℤ) : Nat :=
  (if it < 0 then it + numItems else it).toNat

/-- Predicate: every cell of the matrix is 0 or 1 (the Dataset invariant). -/
def IsBinary (d : Mat) : Prop := ∀ t i, d t i = 0 ∨ d t i = 1

/-- Draw k distinct elements from the pool, one tape cell per element:
each step removes the chosen element from the pool.  This models the
support of numpy sampling without replacement (every ordered selection of
distinct pool elements is realised by some tape). -/
def pickFrom : Nat → List Nat → RStream → List Nat
  | 0, _, _ => []
  | k + 1, pool, s =>
    pool.getD (idxDraw (s 0) pool.length) 0 ::
      pickFrom k (pool.eraseIdx (idxDraw (s 0) pool.length)) (shiftS s 1)

/-- Model of np.random.choice(n, size, replace=False) (uniform, without
replacement): fails when size exceeds the population. -/
def choiceU (n size : Nat) (s : RStream) : Option (List Nat × RStream) :=
  if size ≤ n then some (pickFrom size (List.range n) s, shiftS s size)
  else none

/-- Validation block of PatternInjector.inject_pattern, in source order;
returns the message of the first failing check. -/
def checkPattern (numItems : Nat) (patternItems : List ℤ) (targetSupport noiseRatio : ℚ) :
    Option String :=
  if patternItems = [] then some "pattern_items cannot be empty"
  else if patternItems.any (fun it => decide (it < 0 ∨ (numItems : ℤ) ≤ it)) then
    some "pattern_items must be in range"
  else if ¬(0 < targetSupport ∧ targetSupport ≤ 1) then
    some "target_support must be between 0 and 1"
  else if ¬(0 ≤ noiseRatio ∧ noiseRatio < 1) then
    some "noise_ratio must be between 0 and 1"
  else none

/-- Number of transactions targeted by inject_pattern: noise-compensated
support, capped at 1, scaled by the transaction count and truncated by
python int(). -/
def numInjections (numTransactions : Nat) (targetSupport noiseRatio : ℚ) : Nat :=
  if 0 < noiseRatio then
    (pyTrunc ((numTransactions : ℚ) *
      min (targetSupport * (1 / (1 - noiseRatio * (7 / 10)))) 1)).toNat
  else
    (pyTrunc ((numTransactions : ℚ) * targetSupport)).toNat

/-- Inner loop of inject_pattern over one selected transaction: for each
pattern item draw one uniform sample and set the cell iff the draw exceeds
the noise ratio. -/
def writeRow : Mat → Nat → List ℤ → ℚ → RStream → Mat × RStream
  | d, _, [], _, s => (d, s)
  | d, t, it :: rest, noiseRatio, s =>
    writeRow (if noiseRatio < unif s then setCell d t it.toNat 1 else d)
      t rest noiseRatio (shiftS s 1)

/-- Outer loop of inject_pattern over the selected transactions. -/
def injectWrites : Mat → List Nat → List ℤ → ℚ → RStream → Mat × RStream
  | d, [], _, _, s => (d, s)
  | d, t :: rest, items, noiseRatio, s =>
    injectWrites (writeRow d t items noiseRatio s).1 rest items noiseRatio
      (writeRow d t items noiseRatio s).2

/-- PatternInjector.inject_pattern.  The third component is the raised
error, if any; the first component is the matrix state reached (python
mutates in place, and validation happens before any mutation). -/
def injectPattern (d : Mat) (patternItems : List ℤ) (targetSupport noiseRatio : ℚ)
    (s : RStream) (numTransactions numItems : Nat) : Mat × RStream × Option String :=
  match checkPattern numItems patternItems targetSupport noiseRatio with
  | some e => (d, s, some e)
  | none =>
    if numInjections numTransactions targetSupport noiseRatio = 0 then (d, s, none)
    else
      match choiceU numTransactions (numInjections numTransactions targetSupport noiseRatio) s with
      | none => (d, s, some "Cannot take a larger sample than population when replace=False")
      | some (rows, s1) =>
        ((injectWrites d rows patternItems noiseRatio s1).1,
         (injectWrites d rows patternItems noiseRatio s1).2, none)

/-- One pattern specification from the configuration; noise_ratio is the
optional dictionary entry read with default 0. -/
structure PatternSpec where
  id : String
  items : List ℤ
  target_support : ℚ
  noise_ratio : Option ℚ

/-- PatternInjector.inject_multiple_patterns: apply the patterns in list
order; a raised error aborts the remaining sequence while mutations from
already-applied patterns persist. -/
def injectMultiplePatterns (d : Mat) (ps : List PatternSpec) (s : RStream)
    (numTransactions numItems : Nat) : Mat × RStream × Option String :=
  match ps with
  | [] => (d, s, none)
  | p :: rest =>
    match injectPattern d p.items p.target_support (p.noise_ratio.getD 0) s
        numTransactions numItems with
    | (d1, s1, some e) => (d1, s1, some e)
    | (d1, s1, none) => injectMultiplePatterns d1 rest s1 numTransactions numItems

/-- Validity of one pattern specification, as the spec states the inject
preconditions. -/
def SpecValid (numItems : Nat) (p : PatternSpec) : Prop :=
  p.items ≠ [] ∧ (∀ it ∈ p.items, 0 ≤ it ∧ it < (numItems : ℤ)) ∧
    0 < p.target_support ∧ p.target_support ≤ 1 ∧
    0 ≤ p.noise_ratio.getD 0 ∧ p.noise_ratio.getD 0 < 1

/-- PatternInjector.verify_pattern: fraction of rows whose cells at every
pattern item equal 1; 0 for an empty item list. -/
def verifyPattern (d : Mat) (numTransactions numItems : Nat) (patternItems : List ℤ) : ℚ :=
  if patternItems = [] then 0
  else
    (((List.range numTransactions).countP
        (fun t => patternItems.all (fun it => decide (d t (colIdx numItems it) = 1)))) : ℚ)
      / (numTransactions : ℚ)


/-- Parameter dictionary for the distribution engine.  Each optional entry
models the corresponding params.get(key, default) access; the values are
the rational float literals of the configuration. -/
structure DParams where
  alpha : Option ℚ := none
  mean : Option ℚ := none
  std : Option ℚ := none
  scale : Option ℚ := none

/-- Divide every entry of a list by the list's sum (probs / probs.sum()). -/
noncomputable def normalizeProbs (l : List ℝ) : List ℝ := l.map (fun x => x / l.sum)

/-- DistributionEngine._random_distribution: np.ones(n) normalized. -/
noncomputable def randomDistribution (numItems : Nat) : List ℝ :=
  normalizeProbs (List.replicate numItems 1)

/-- Raw zipf weight of the item at index r: 1 / rank^alpha with rank
r + 1 (1.0 / np.power(ranks, alpha)). -/
noncomputable def zipfWeight (α : ℝ) (r : Nat) : ℝ := 1 / ((r + 1 : Nat) : ℝ) ^ α

/-- DistributionEngine._zipf_distribution: weight 1 / rank^alpha for ranks
1..n (default alpha 1.1), normalized. -/
noncomputable def zipfDistribution (numItems : Nat) (params : DParams) : List ℝ :=
  normalizeProbs ((List.range numItems).map
    (zipfWeight ((params.alpha.getD (11 / 10) : ℚ) : ℝ)))

/-- Points np.linspace(a, b, n): n evenly spaced values from a to b
inclusive (a alone for n = 1, empty for n = 0). -/
noncomputable def linspace (a b : ℝ) (n : Nat) : List ℝ :=
  if n = 1 then [a]
  else (List.range n).map (fun i : Nat => a + (b - a) * (i : ℝ) / ((n : ℝ) - 1))

/-- Gaussian density used by scipy norm.pdf for a positive scale; scipy
rejects scale <= 0 at runtime (it yields nan), which the real-valued
formula reflects by leaving the contract unsatisfied there. -/
noncomputable def normPdf (mean std x : ℝ) : ℝ :=
  Real.exp (-(x - mean) ^ 2 / (2 * std ^ 2)) / (std * Real.sqrt (2 * Real.pi))

/-- Exponential density used by scipy expon.pdf for a positive scale:
exp(-x / scale) / scale on x >= 0 and 0 below the support. -/
noncomputable def exponPdf (scale x : ℝ) : ℝ :=
  if 0 ≤ x then Real.exp (-x / scale) / scale else 0

/-- DistributionEngine._normal_distribution: Gaussian density (defaults
mean 0.5, std 0.2) at n evenly spaced positions in [0,1], clipped at 0 and
normalized. -/
noncomputable def normalDistribution (numItems : Nat) (params : DParams) : List ℝ :=
  normalizeProbs ((linspace 0 1 numItems).map
    (fun x => max (normPdf ((params.mean.getD (1 / 2) : ℚ) : ℝ)
      ((params.std.getD (1 / 5) : ℚ) : ℝ) x) 0))

/-- DistributionEngine._exponential_distribution: exponential density
(default scale 1.0) at n evenly spaced positions in [0,5], normalized. -/
noncomputable def exponentialDistribution (numItems : Nat) (params : DParams) : List ℝ :=
  normalizeProbs ((linspace 0 5 numItems).map
    (fun x => exponPdf ((params.scale.getD 1 : ℚ) : ℝ) x))

/-- DistributionEngine.generate_item_frequencies: closed dispatch on the
method tag, ValueError for an unknown tag.  Purely functional: no random
stream is consumed. -/
noncomputable def generateItemFrequencies (numItems : Nat) (method : String)
    (params : DParams) : Except String (List ℝ) :=
  if method = "random" then .ok (randomDistribution numItems)
  else if method = "zipf" then .ok (zipfDistribution numItems params)
  else if method = "normal" then .ok (normalDistribution numItems params)
  else if method = "exponential" then .ok (exponentialDistribution numItems params)
  else .error ("Unknown distribution method: " ++ method)

/-- Indices of the non-zero entries of the probability vector (numpy checks
them before sampling without replacement). -/
noncomputable def nzIndices (probs : List ℝ) (n : Nat) : List Nat :=
  (List.range n).filter (fun i => decide (probs.getD i 0 ≠ 0))

/-- Model of np.random.choice(n, size, replace=False, p=probs): raises when
fewer non-zero entries exist in p than the requested size, otherwise draws
that many distinct indices among the non-zero entries. -/
noncomputable def choiceW (n size : Nat) (probs : List ℝ) (s : RStream) :
    Option (List Nat × RStream) :=
  if size ≤ (nzIndices probs n).length then
    some (pickFrom size (nzIndices probs n) s, shiftS s size)
  else none

/-- Poisson draw np.random.poisson(lam): the distribution has support all
of Nat, so the draw is modelled as an arbitrary natural number read from
one cell of the adversarial stream. -/
def poissonDraw (_lam : Nat) (s : RStream) : Nat × RStream :=
  ((⌊s 0⌋).toNat, shiftS s 1)

/-- Transaction length of one row: a Poisson draw around the configured
average clipped to [1, num_items] when a non-zero average is configured
(python truthiness: an absent key or a configured 0 both select the
density branch), otherwise floor(num_items * density) clipped to at
least 1. -/
def transLen (numItems : Nat) (density : ℚ) (avgLen : Option Nat) (s : RStream) :
    Nat × RStream :=
  match avgLen with
  | some (l + 1) =>
    ((poissonDraw (l + 1) s).1.min numItems |>.max 1, (poissonDraw (l + 1) s).2)
  | _ => ((pyTrunc ((numItems : ℚ) * density)).toNat.max 1, s)

/-- Mark the selected columns of row t with 1 (data[i, selected] = 1). -/
def writeItems (d : Mat) (t : Nat) (sel : List Nat) : Mat :=
  sel.foldl (fun m i => setCell m t i 1) d

/-- Row loop of DataGenerator._generate_transactions: fuel counts the rows
still to fill, t is the current row index. -/
noncomputable def sampleLoop (numItems : Nat) (density : ℚ) (avgLen : Option Nat)
    (probs : List ℝ) : Nat → Nat → Mat → RStream → Except String (Mat × RStream)
  | 0, _, d, s => .ok (d, s)
  | k + 1, t, d, s =>
    match choiceW numItems (transLen numItems density avgLen s).1 probs
        (transLen numItems density avgLen s).2 with
    | none => .error "Fewer non-zero entries in p than size"
    | some (sel, s1) => sampleLoop numItems density avgLen probs k (t + 1)
        (writeItems d t sel) s1

/-- DataGenerator._generate_transactions: start from np.zeros and fill the
rows in order. -/
noncomputable def generateTransactions (numTransactions numItems : Nat) (density : ℚ)
    (avgLen : Option Nat) (probs : List ℝ) (s : RStream) : Except String (Mat × RStream) :=
  sampleLoop numItems density avgLen probs numTransactions 0 zeroMat s

/-- Validated configuration owned by DataGenerator: dataset_meta,
distribution_config and the ordered pattern list. -/
structure Config where
  num_transactions : Nat
  num_items : Nat
  density : ℚ
  avg_transaction_len : Option Nat
  method : String
  dparams : DParams
  patterns : List PatternSpec

/-- Deterministic stream produced by np.random.seed(seed): the PRNG
internals are abstracted as an arbitrary but fixed rational tape per
seed. -/
def seedStream (seed : Nat) : RStream :=
  fun k => (((seed + 1) * (k + 1)) % 997 : Nat) / 997

/-- DataGenerator.generate: reseed the shared stream when a seed is given,
build the distribution (no randomness), sample the base transactions, then
inject the configured patterns in declared order.  A python exception at
any stage is an error result. -/
noncomputable def generate (cfg : Config) (seed : Option Nat) (s0 : RStream) :
    Except String (Mat × RStream) :=
  match generateItemFrequencies cfg.num_items cfg.method cfg.dparams with
  | .error e => .error e
  | .ok probs =>
    match generateTransactions cfg.num_transactions cfg.num_items cfg.density
        cfg.avg_transaction_len probs
        (match seed with | some sd => seedStream sd | none => s0) with
    | .error e => .error e
    | .ok (d, s1) =>
      if cfg.patterns.isEmpty then .ok (d, s1)
      else
        match injectMultiplePatterns d cfg.patterns s1 cfg.num_transactions
            cfg.num_items with
        | (d2, s2, none) => .ok (d2, s2)
        | (_, _, some e) => .error e

/-- Matrix observed from a generation result (the all-zero matrix when the
call raised instead of returning). -/
noncomputable def resultMat (r : Except String (Mat × RStream)) : Mat :=
  match r with
  | .ok p => p.1
  | .error _ => zeroMat

theorem shiftS_apply (s : RStream) (k n : Nat) : shiftS s k n = s (n + k) := rfl

theorem shiftS_shiftS (s : RStream) (j k : Nat) :
    shiftS (shiftS s j) k = shiftS s (k + j) := by
  funext n
  simp [shiftS, Nat.add_assoc]

theorem idxDraw_lt (q : ℚ) {m : Nat} (hm : 0 < m) : idxDraw q m < m :=
  Nat.mod_lt _ hm

theorem pickFrom_length (k : Nat) (pool : List Nat) (s : RStream) :
    (pickFrom k pool s).length = k := by
  induction k generalizing pool s with
  | zero => rfl
  | succ k ih => simp [pickFrom, ih]

theorem perm_getElem_cons_eraseIdx (l : List Nat) (i : Nat) (h : i < l.length) :
    l.Perm (l.get ⟨i, h⟩ :: l.eraseIdx i) := by
  conv_lhs => rw [← List.take_append_drop i l]
  rw [List.eraseIdx_eq_take_drop_succ]
  have hdrop : l.drop i = l.get ⟨i, h⟩ :: l.drop (i + 1) := by
    rw [← List.getElem_cons_drop l i h]
    rfl
  rw [hdrop]
  exact List.perm_middle

theorem pickFrom_subset (k : Nat) (pool : List Nat) (s : RStream)
    (hk : k ≤ pool.length) : ∀ x ∈ pickFrom k pool s, x ∈ pool := by
  induction k generalizing pool s with
  | zero => intro x hx; simp [pickFrom] at hx
  | succ k ih =>
    intro x hx
    have hpos : 0 < pool.length := Nat.lt_of_lt_of_le (Nat.succ_pos k) hk
    have hidx : idxDraw (s 0) pool.length < pool.length := idxDraw_lt _ hpos
    have hlen : (pool.eraseIdx (idxDraw (s 0) pool.length)).length = pool.length - 1 :=
      List.length_eraseIdx_of_lt hidx
    rcases List.mem_cons.mp hx with h | h
    · subst h
      have : pool.getD (idxDraw (s 0) pool.length) 0 = pool.get ⟨_, hidx⟩ := by
        simp [List.getD_eq_getElem?_getD, List.getElem?_eq_getElem hidx]
      rw [this]
      exact List.get_mem _ _ hidx
    · have hk' : k ≤ (pool.eraseIdx (idxDraw (s 0) pool.length)).length := by
        rw [hlen]
        omega
      exact List.eraseIdx_subset _ _ (ih _ _ hk' x h)

theorem pickFrom_nodup (k : Nat) (pool : List Nat) (s : RStream)
    (hk : k ≤ pool.length) (hnd : pool.Nodup) : (pickFrom k pool s).Nodup := by
  induction k generalizing pool s with
  | zero => simp [pickFrom]
  | succ k ih =>
    have hpos : 0 < pool.length := Nat.lt_of_lt_of_le (Nat.succ_pos k) hk
    have hidx : idxDraw (s 0) pool.length < pool.length := idxDraw_lt _ hpos
    have hperm := perm_getElem_cons_eraseIdx pool _ hidx
    have hnd' : (pool.get ⟨_, hidx⟩ :: pool.eraseIdx (idxDraw (s 0) pool.length)).Nodup :=
      hperm.nodup hnd
    have hgetD : pool.getD (idxDraw (s 0) pool.length) 0 = pool.get ⟨_, hidx⟩ := by
      simp [List.getD_eq_getElem?_getD, List.getElem?_eq_getElem hidx]
    have hlen : (pool.eraseIdx (idxDraw (s 0) pool.length)).length = pool.length - 1 :=
      List.length_eraseIdx_of_lt hidx
    have hk' : k ≤ (pool.eraseIdx (idxDraw (s 0) pool.length)).length := by
      rw [hlen]; omega
    rw [pickFrom, List.nodup_cons, hgetD]
    refine ⟨fun hmem => ?_, ih _ _ hk' (List.nodup_cons.mp hnd').2⟩
    exact (List.nodup_cons.mp hnd').1
      (pickFrom_subset _ _ _ hk' _ hmem)

theorem pickFrom_range_bound (k n : Nat) (s : RStream) (hk : k ≤ n) :
    ∀ x ∈ pickFrom k (List.range n) s, x < n := by
  intro x hx
  have := pickFrom_subset k (List.range n) s (by simpa using hk) x hx
  exact List.mem_range.mp this

theorem pickFrom_range_nodup (k n : Nat) (s : RStream) (hk : k ≤ n) :
    (pickFrom k (List.range n) s).Nodup :=
  pickFrom_nodup k (List.range n) s (by simpa using hk) (List.nodup_range n)

theorem writeRow_snd (d : Mat) (t : Nat) (items : List ℤ) (nr : ℚ) (s : RStream) :
    (writeRow d t items nr s).2 = shiftS s items.length := by
  induction items generalizing d s with
  | nil =>
    funext n
    simp [writeRow, shiftS]
  | cons it rest ih =>
    rw [writeRow, ih, shiftS_shiftS]
    simp [Nat.add_comm]

theorem writeRow_cell_cases (d : Mat) (t : Nat) (items : List ℤ) (nr : ℚ) (s : RStream)
    (a b : Nat) : (writeRow d t items nr s).1 a b = d a b ∨ (writeRow d t items nr s).1 a b = 1 := by
  induction items generalizing d s with
  | nil => exact Or.inl rfl
  | cons it rest ih =>
    rw [writeRow]
    rcases ih (if nr < unif s then setCell d t it.toNat 1 else d) (shiftS s 1) with h | h
    · rw [h]
      by_cases hk : nr < unif s
      · simp only [if_pos hk, setCell]
        by_cases hab : a = t ∧ b = it.toNat
        · exact Or.inr (if_pos hab)
        · exact Or.inl (if_neg hab)
      · exact Or.inl (by rw [if_neg hk])
    · exact Or.inr h

theorem writeRow_unchanged (d : Mat) (t : Nat) (items : List ℤ) (nr : ℚ) (s : RStream)
    (a b : Nat) (h : a ≠ t ∨ ∀ it ∈ items, it.toNat ≠ b) :
    (writeRow d t items nr s).1 a b = d a b := by
  induction items generalizing d s with
  | nil => rfl
  | cons it rest ih =>
    rw [writeRow, ih]
    · by_cases hk : nr < unif s
      · simp only [if_pos hk, setCell]
        rw [if_neg]
        rintro ⟨hat, hbit⟩
        rcases h with h | h
        · exact h hat
        · exact h it (List.mem_cons_self it rest) hbit.symm
      · rw [if_neg hk]
    · rcases h with h | h
      · exact Or.inl h
      · exact Or.inr fun x hx => h x (List.mem_cons_of_mem it hx)

theorem writeRow_allkeep (d : Mat) (t : Nat) (items : List ℤ) (nr : ℚ) (s : RStream)
    (hs : ∀ k, nr < Int.fract (s k)) (a b : Nat) :
    (writeRow d t items nr s).1 a b =
      if a = t ∧ ∃ it ∈ items, it.toNat = b then 1 else d a b := by
  induction items generalizing d s with
  | nil => simp [writeRow]
  | cons it rest ih =>
    have hk : nr < unif s := hs 0
    have hs' : ∀ k, nr < Int.fract (shiftS s 1 k) := fun k => hs (k + 1)
    rw [writeRow, if_pos hk, ih _ _ hs']
    by_cases hrest : a = t ∧ ∃ x ∈ rest, x.toNat = b
    · rw [if_pos hrest, if_pos]
      exact ⟨hrest.1, hrest.2.elim fun x hx => ⟨x, List.mem_cons_of_mem it hx.1, hx.2⟩⟩
    · rw [if_neg hrest]
      by_cases hhd : a = t ∧ b = it.toNat
      · rw [setCell, if_pos hhd, if_pos ⟨hhd.1, it, List.mem_cons_self it rest, hhd.2.symm⟩]
      · rw [setCell, if_neg hhd, if_neg]
        rintro ⟨hat, x, hxmem, hxb⟩
        rcases List.mem_cons.mp hxmem with hx | hx
        · exact hhd ⟨hat, by rw [← hxb, hx]⟩
        · exact hrest ⟨hat, x, hx, hxb⟩

theorem writeRow_nokeep (d : Mat) (t : Nat) (items : List ℤ) (nr : ℚ) (s : RStream)
    (hs : ∀ k, ¬ nr < Int.fract (s k)) : (writeRow d t items nr s).1 = d := by
  induction items generalizing d s with
  | nil => rfl
  | cons it rest ih =>
    have hk : ¬ nr < unif s := hs 0
    rw [writeRow, if_neg hk]
    exact ih d (shiftS s 1) fun k => hs (k + 1)

theorem injectWrites_cell_cases (d : Mat) (rows : List Nat) (items : List ℤ) (nr : ℚ)
    (s : RStream) (a b : Nat) :
    (injectWrites d rows items nr s).1 a b = d a b ∨
      (injectWrites d rows items nr s).1 a b = 1 := by
  induction rows generalizing d s with
  | nil => exact Or.inl rfl
  | cons t rest ih =>
    rw [injectWrites]
    rcases ih (writeRow d t items nr s).1 (writeRow d t items nr s).2 with h | h
    · rw [h]
      exact writeRow_cell_cases d t items nr s a b
    · exact Or.inr h

theorem injectWrites_notrow (d : Mat) (rows : List Nat) (items : List ℤ) (nr : ℚ)
    (s : RStream) (a b : Nat) (h : a ∉ rows) :
    (injectWrites d rows items nr s).1 a b = d a b := by
  induction rows generalizing d s with
  | nil => rfl
  | cons t rest ih =>
    rw [injectWrites, ih _ _ fun hmem => h (List.mem_cons_of_mem t hmem)]
    exact writeRow_unchanged d t items nr s a b
      (Or.inl fun hat => h (hat ▸ List.mem_cons_self t rest))

theorem injectWrites_nokeep (d : Mat) (rows : List Nat) (items : List ℤ) (nr : ℚ)
    (s : RStream) (hs : ∀ k, ¬ nr < Int.fract (s k)) :
    (injectWrites d rows items nr s).1 = d := by
  induction rows generalizing d s with
  | nil => rfl
  | cons t rest ih =>
    rw [injectWrites, writeRow_nokeep d t items nr s hs, writeRow_snd]
    exact ih d (shiftS s items.length) fun k => hs (k + items.length)

theorem injectWrites_allkeep (d : Mat) (rows : List Nat) (items : List ℤ) (nr : ℚ)
    (s : RStream) (hs : ∀ k, nr < Int.fract (s k)) (a b : Nat) :
    (injectWrites d rows items nr s).1 a b =
      if a ∈ rows ∧ ∃ it ∈ items, it.toNat = b then 1 else d a b := by
  induction rows generalizing d s with
  | nil => simp [injectWrites]
  | cons t rest ih =>
    have hs1 : ∀ k, nr < Int.fract ((writeRow d t items nr s).2 k) := by
      rw [writeRow_snd]
      exact fun k => hs (k + items.length)
    rw [injectWrites, ih _ _ hs1]
    by_cases hrest : a ∈ rest ∧ ∃ it ∈ items, it.toNat = b
    · rw [if_pos hrest, if_pos ⟨List.mem_cons_of_mem t hrest.1, hrest.2⟩]
    · rw [if_neg hrest, writeRow_allkeep d t items nr s hs]
      by_cases hhd : a = t ∧ ∃ it ∈ items, it.toNat = b
      · rw [if_pos hhd, if_pos ⟨hhd.1 ▸ List.mem_cons_self t rest, hhd.2⟩]
      · rw [if_neg hhd, if_neg]
        rintro ⟨hmem, hex⟩
        rcases List.mem_cons.mp hmem with hx | hx
        · exact hhd ⟨hx, hex⟩
        · exact hrest ⟨hx, hex⟩

theorem checkPattern_none_iff (numItems : Nat) (items : List ℤ) (ts nr : ℚ) :
    checkPattern numItems items ts nr = none ↔
      (items ≠ [] ∧ (∀ it ∈ items, 0 ≤ it ∧ it < (numItems : ℤ)) ∧
        0 < ts ∧ ts ≤ 1 ∧ 0 ≤ nr ∧ nr < 1) := by
  constructor
  · intro h
    unfold checkPattern at h
    by_cases h1 : items = []
    · rw [if_pos h1] at h
      cases h
    rw [if_neg h1] at h
    by_cases h2 : items.any (fun it => decide (it < 0 ∨ (numItems : ℤ) ≤ it)) = true
    · rw [if_pos h2] at h
      cases h
    rw [if_neg h2] at h
    by_cases h3 : 0 < ts ∧ ts ≤ 1
    · by_cases h4 : 0 ≤ nr ∧ nr < 1
      · refine ⟨h1, fun it hit => ?_, h3.1, h3.2, h4.1, h4.2⟩
        by_contra hc
        apply h2
        rw [List.any_eq_true]
        exact ⟨it, hit, decide_eq_true (by omega)⟩
      · rw [if_neg (not_not_intro h3), if_pos h4] at h
        cases h
    · rw [if_pos h3] at h
      cases h
  · rintro ⟨h1, hall, hts, hts1, hnr, hnr1⟩
    unfold checkPattern
    have hany : ¬ items.any (fun it => decide (it < 0 ∨ (numItems : ℤ) ≤ it)) = true := by
      rw [List.any_eq_true]
      rintro ⟨x, hx, hxp⟩
      have := hall x hx
      rcases of_decide_eq_true hxp with h | h <;> omega
    rw [if_neg h1, if_neg hany, if_neg (not_not_intro ⟨hts, hts1⟩),
      if_neg (not_not_intro ⟨hnr, hnr1⟩)]

theorem pyTrunc_eq_floor {q : ℚ} (h : 0 ≤ q) : pyTrunc q = ⌊q⌋ := if_pos h

theorem compensation_pos {nr : ℚ} (_h0 : 0 ≤ nr) (h1 : nr < 1) :
    0 < 1 - nr * (7 / 10) := by
  nlinarith

theorem numInjections_le (numTransactions : Nat) {ts nr : ℚ} (hts : 0 < ts)
    (hts1 : ts ≤ 1) (hnr : 0 ≤ nr) (hnr1 : nr < 1) :
    numInjections numTransactions ts nr ≤ numTransactions := by
  have hT : (0 : ℚ) ≤ (numTransactions : ℚ) := Nat.cast_nonneg _
  unfold numInjections
  split_ifs with hp
  · have hcomp : 0 < 1 - nr * (7 / 10) := compensation_pos hnr hnr1
    have hx : 0 ≤ ts * (1 / (1 - nr * (7 / 10))) := by positivity
    have hmin0 : 0 ≤ min (ts * (1 / (1 - nr * (7 / 10)))) 1 := le_min hx zero_le_one
    have hmin1 : min (ts * (1 / (1 - nr * (7 / 10)))) 1 ≤ 1 := min_le_right _ _
    have hq0 : 0 ≤ (numTransactions : ℚ) * min (ts * (1 / (1 - nr * (7 / 10)))) 1 :=
      mul_nonneg hT hmin0
    rw [pyTrunc_eq_floor hq0]
    have hqT : (numTransactions : ℚ) * min (ts * (1 / (1 - nr * (7 / 10)))) 1 ≤
        (numTransactions : ℚ) := by
      nlinarith
    have := Int.floor_le_floor hqT
    rw [Int.floor_natCast] at this
    omega
  · have hq0 : 0 ≤ (numTransactions : ℚ) * ts := mul_nonneg hT hts.le
    rw [pyTrunc_eq_floor hq0]
    have hqT : (numTransactions : ℚ) * ts ≤ (numTransactions : ℚ) := by nlinarith
    have := Int.floor_le_floor hqT
    rw [Int.floor_natCast] at this
    omega

theorem injectPattern_err_none (d : Mat) (items : List ℤ) (ts nr : ℚ) (s : RStream)
    (numTransactions numItems : Nat)
    (hc : checkPattern numItems items ts nr = none) :
    (injectPattern d items ts nr s numTransactions numItems).2.2 = none := by
  obtain ⟨-, -, hts, hts1, hnr, hnr1⟩ := (checkPattern_none_iff numItems items ts nr).mp hc
  unfold injectPattern
  rw [hc]
  by_cases hz : numInjections numTransactions ts nr = 0
  · rw [if_pos hz]
  · rw [if_neg hz]
    have hle : numInjections numTransactions ts nr ≤ numTransactions :=
      numInjections_le numTransactions hts hts1 hnr hnr1
    unfold choiceU
    rw [if_pos hle]

theorem injectPattern_cell_cases (d : Mat) (items : List ℤ) (ts nr : ℚ) (s : RStream)
    (numTransactions numItems : Nat) (a b : Nat) :
    (injectPattern d items ts nr s numTransactions numItems).1 a b = d a b ∨
      (injectPattern d items ts nr s numTransactions numItems).1 a b = 1 := by
  unfold injectPattern
  cases checkPattern numItems items ts nr with
  | some e => exact Or.inl rfl
  | none =>
    by_cases hz : numInjections numTransactions ts nr = 0
    · rw [if_pos hz]
      exact Or.inl rfl
    · rw [if_neg hz]
      cases hch : choiceU numTransactions (numInjections numTransactions ts nr) s with
      | none => exact Or.inl rfl
      | some p => exact injectWrites_cell_cases d p.1 items nr p.2 a b

theorem injectMultiple_cell_cases (d : Mat) (ps : List PatternSpec) (s : RStream)
    (numTransactions numItems : Nat) (a b : Nat) :
    (injectMultiplePatterns d ps s numTransactions numItems).1 a b = d a b ∨
      (injectMultiplePatterns d ps s numTransactions numItems).1 a b = 1 := by
  induction ps generalizing d s with
  | nil => exact Or.inl rfl
  | cons p rest ih =>
    have hcc := injectPattern_cell_cases d p.items p.target_support
      (p.noise_ratio.getD 0) s numTransactions numItems a b
    rcases hip : injectPattern d p.items p.target_support (p.noise_ratio.getD 0) s
        numTransactions numItems with ⟨d1, s1, e⟩
    rw [hip] at hcc
    cases e with
    | some err =>
      simp only [injectMultiplePatterns, hip]
      exact hcc
    | none =>
      simp only [injectMultiplePatterns, hip]
      rcases ih d1 s1 with h | h
      · rw [h]
        exact hcc
      · exact Or.inr h

theorem countP_mem_eq_length (R : List Nat) (n : Nat) (hnd : R.Nodup)
    (hb : ∀ x ∈ R, x < n) :
    (List.range n).countP (fun t => decide (t ∈ R)) = R.length := by
  rw [List.countP_eq_length_filter]
  have hperm : ((List.range n).filter (fun t => decide (t ∈ R))).Perm R := by
    rw [List.perm_ext_iff_of_nodup (List.Nodup.filter _ (List.nodup_range n)) hnd]
    intro a
    rw [List.mem_filter, List.mem_range]
    constructor
    · rintro ⟨-, ha⟩
      exact of_decide_eq_true ha
    · intro ha
      exact ⟨hb a ha, decide_eq_true ha⟩
  exact hperm.length_eq

theorem verifyPattern_mono (d d2 : Mat) (numTransactions numItems : Nat)
    (items : List ℤ) (h : ∀ a b, d a b = 1 → d2 a b = 1) :
    verifyPattern d numTransactions numItems items ≤
      verifyPattern d2 numTransactions numItems items := by
  unfold verifyPattern
  by_cases hempty : items = []
  · rw [if_pos hempty, if_pos hempty]
  rw [if_neg hempty, if_neg hempty]
  rcases Nat.eq_zero_or_pos numTransactions with hT | hT
  · subst hT
    simp
  have hcount : (List.range numTransactions).countP
      (fun t => items.all (fun it => decide (d t (colIdx numItems it) = 1))) ≤
      (List.range numTransactions).countP
      (fun t => items.all (fun it => decide (d2 t (colIdx numItems it) = 1))) := by
    apply List.countP_mono_left
    intro t _ ht
    rw [List.all_eq_true] at ht ⊢
    intro it hit
    exact decide_eq_true (h t _ (of_decide_eq_true (ht it hit)))
  have hTpos : (0 : ℚ) < (numTransactions : ℚ) := by
    exact_mod_cast hT
  rw [div_le_div_iff_of_pos_right hTpos]
  exact_mod_cast hcount

theorem isBinary_of_cases (d d2 : Mat) (hb : IsBinary d)
    (h : ∀ a b, d2 a b = d a b ∨ d2 a b = 1) : IsBinary d2 := by
  intro t i
  rcases h t i with h' | h'
  · rw [h']
    exact hb t i
  · exact Or.inr h'

theorem zeroMat_binary : IsBinary zeroMat := fun _ _ => Or.inl rfl

theorem writeItems_cell_cases (d : Mat) (t : Nat) (sel : List Nat) (a b : Nat) :
    writeItems d t sel a b = d a b ∨ writeItems d t sel a b = 1 := by
  induction sel generalizing d with
  | nil => exact Or.inl rfl
  | cons i rest ih =>
    unfold writeItems at ih ⊢
    rw [List.foldl_cons]
    rcases ih (setCell d t i 1) with h | h
    · rw [h]
      unfold setCell
      by_cases hab : a = t ∧ b = i
      · exact Or.inr (if_pos hab)
      · exact Or.inl (if_neg hab)
    · exact Or.inr h

theorem sampleLoop_binary (numItems : Nat) (density : ℚ) (avgLen : Option Nat)
    (probs : List ℝ) (k t : Nat) (d : Mat) (s : RStream) (hb : IsBinary d) :
    ∀ d2 s2, sampleLoop numItems density avgLen probs k t d s = .ok (d2, s2) →
      IsBinary d2 := by
  induction k generalizing t d s with
  | zero =>
    intro d2 s2 h
    unfold sampleLoop at h
    cases h
    exact hb
  | succ k ih =>
    intro d2 s2 h
    unfold sampleLoop at h
    cases hch : choiceW numItems (transLen numItems density avgLen s).1 probs
        (transLen numItems density avgLen s).2 with
    | none => rw [hch] at h; cases h
    | some p =>
      rw [hch] at h
      exact ih (t + 1) (writeItems d t p.1) p.2
        (isBinary_of_cases d _ hb (writeItems_cell_cases d t p.1)) d2 s2 h

theorem cell_le_of_cases (d d2 : Mat) (hb : IsBinary d)
    (h : ∀ a b, d2 a b = d a b ∨ d2 a b = 1) : ∀ a b, d a b ≤ d2 a b := by
  intro a b
  rcases h a b with h' | h'
  · rw [h']
  · rw [h']
    rcases hb a b with h0 | h0
    · rw [h0]
      exact Nat.zero_le 1
    · rw [h0]

theorem cell_one_of_cases (d d2 : Mat) (h : ∀ a b, d2 a b = d a b ∨ d2 a b = 1) :
    ∀ a b, d a b = 1 → d2 a b = 1 := by
  intro a b h1
  rcases h a b with h' | h'
  · rw [h', h1]
  · exact h'

theorem injectMultiple_valid_none (d : Mat) (ps : List PatternSpec) (s : RStream)
    (numTransactions numItems : Nat)
    (hv : ∀ q ∈ ps, checkPattern numItems q.items q.target_support
      (q.noise_ratio.getD 0) = none) :
    (injectMultiplePatterns d ps s numTransactions numItems).2.2 = none := by
  induction ps generalizing d s with
  | nil => rfl
  | cons q rest ih =>
    have hq := injectPattern_err_none d q.items q.target_support (q.noise_ratio.getD 0)
      s numTransactions numItems (hv q (List.mem_cons_self q rest))
    rcases hip : injectPattern d q.items q.target_support (q.noise_ratio.getD 0) s
        numTransactions numItems with ⟨d1, s1, e⟩
    rw [hip] at hq
    cases e with
    | some err => cases hq
    | none =>
      simp only [injectMultiplePatterns, hip]
      exact ih d1 s1 fun x hx => hv x (List.mem_cons_of_mem q hx)

theorem injectMultiple_append_valid (d : Mat) (ps1 rest : List PatternSpec) (s : RStream)
    (numTransactions numItems : Nat)
    (hv : ∀ q ∈ ps1, checkPattern numItems q.items q.target_support
      (q.noise_ratio.getD 0) = none) :
    injectMultiplePatterns d (ps1 ++ rest) s numTransactions numItems =
      injectMultiplePatterns (injectMultiplePatterns d ps1 s numTransactions numItems).1
        rest (injectMultiplePatterns d ps1 s numTransactions numItems).2.1
        numTransactions numItems := by
  induction ps1 generalizing d s with
  | nil => rfl
  | cons q qs ih =>
    have hq := injectPattern_err_none d q.items q.target_support (q.noise_ratio.getD 0)
      s numTransactions numItems (hv q (List.mem_cons_self q qs))
    rcases hip : injectPattern d q.items q.target_support (q.noise_ratio.getD 0) s
        numTransactions numItems with ⟨d1, s1, e⟩
    rw [hip] at hq
    cases e with
    | some err => cases hq
    | none =>
      rw [List.cons_append]
      simp only [injectMultiplePatterns, hip]
      exact ih d1 s1 fun x hx => hv x (List.mem_cons_of_mem q hx)

theorem normalizeProbs_length (l : List ℝ) : (normalizeProbs l).length = l.length := by
  simp [normalizeProbs]

theorem sum_map_div (l : List ℝ) (c : ℝ) :
    (l.map (fun x => x / c)).sum = l.sum / c := by
  induction l with
  | nil => simp
  | cons a t ih => simp [ih, add_div]

theorem normalizeProbs_sum (l : List ℝ) (h : l.sum ≠ 0) :
    (normalizeProbs l).sum = 1 := by
  unfold normalizeProbs
  rw [sum_map_div, div_self h]

theorem normalizeProbs_nonneg (l : List ℝ) (h : ∀ x ∈ l, 0 ≤ x) :
    ∀ y ∈ normalizeProbs l, 0 ≤ y := by
  intro y hy
  obtain ⟨x, hx, rfl⟩ := List.mem_map.mp hy
  exact div_nonneg (h x hx) (List.sum_nonneg h)

theorem normalized_spec (l : List ℝ) (hpos : ∀ x ∈ l, 0 < x) (hne : l ≠ []) :
    (∀ y ∈ normalizeProbs l, 0 ≤ y) ∧ (normalizeProbs l).sum = 1 := by
  have hsum : 0 < l.sum := List.sum_pos l hpos hne
  exact ⟨normalizeProbs_nonneg l fun x hx => (hpos x hx).le,
    normalizeProbs_sum l hsum.ne'⟩

theorem linspace_length (a b : ℝ) (n : Nat) : (linspace a b n).length = n := by
  unfold linspace
  by_cases h : n = 1
  · rw [if_pos h, h]
    rfl
  · rw [if_neg h, List.length_map, List.length_range]

theorem linspace_mem_nonneg (a b : ℝ) (n : Nat) (ha : 0 ≤ a) (hab : a ≤ b) :
    ∀ x ∈ linspace a b n, 0 ≤ x := by
  intro x hx
  unfold linspace at hx
  by_cases h : n = 1
  · rw [if_pos h] at hx
    rcases List.mem_singleton.mp hx with rfl
    exact ha
  · rw [if_neg h] at hx
    obtain ⟨i, hi, rfl⟩ := List.mem_map.mp hx
    rcases Nat.lt_or_ge n 2 with hn | hn
    · interval_cases n
      · simp at hi
      · exact absurd rfl h
    · have hn1 : (0 : ℝ) < (n : ℝ) - 1 := by
        have h2n : (2 : ℝ) ≤ (n : ℝ) := by exact_mod_cast hn
        linarith
      have h0i : (0 : ℝ) ≤ (i : ℝ) := by positivity
      have : 0 ≤ (b - a) * (i : ℝ) / ((n : ℝ) - 1) :=
        div_nonneg (mul_nonneg (by linarith) h0i) hn1.le
      linarith

theorem zipfWeight_pos (α : ℝ) (r : Nat) : 0 < zipfWeight α r := by
  unfold zipfWeight
  apply one_div_pos.mpr
  apply Real.rpow_pos_of_pos
  exact_mod_cast Nat.succ_pos r

theorem zipfWeight_antitone (α : ℝ) (hα : 0 ≤ α) {i j : Nat} (hij : i ≤ j) :
    zipfWeight α j ≤ zipfWeight α i := by
  unfold zipfWeight
  apply one_div_le_one_div_of_le
  · apply Real.rpow_pos_of_pos
    exact_mod_cast Nat.succ_pos i
  · apply Real.rpow_le_rpow
    · exact_mod_cast Nat.zero_le (i + 1)
    · exact_mod_cast Nat.succ_le_succ hij
    · exact hα

theorem normPdf_pos (mean std x : ℝ) (hstd : 0 < std) : 0 < normPdf mean std x := by
  unfold normPdf
  apply div_pos (Real.exp_pos _)
  apply mul_pos hstd
  apply Real.sqrt_pos.mpr
  positivity

theorem normPdf_neg_of_neg_std (mean std x : ℝ) (hstd : std < 0) :
    normPdf mean std x < 0 := by
  unfold normPdf
  apply div_neg_of_pos_of_neg (Real.exp_pos _)
  have hs : 0 < Real.sqrt (2 * Real.pi) := Real.sqrt_pos.mpr (by positivity)
  exact mul_neg_of_neg_of_pos hstd hs

theorem exponPdf_pos (scale x : ℝ) (hscale : 0 < scale) (hx : 0 ≤ x) :
    0 < exponPdf scale x := by
  unfold exponPdf
  rw [if_pos hx]
  exact div_pos (Real.exp_pos _) hscale

theorem getD_normalizeProbs_map (f : Nat → ℝ) (n i : Nat) (hi : i < n) :
    (normalizeProbs ((List.range n).map f)).getD i 0 =
      f i / ((List.range n).map f).sum := by
  have hlen : i < (normalizeProbs ((List.range n).map f)).length := by
    rw [normalizeProbs_length, List.length_map, List.length_range]
    exact hi
  rw [List.getD_eq_getElem?_getD, List.getElem?_eq_getElem hlen]
  simp [normalizeProbs, hi]

/-- C2: for every configuration and every seed S, two generate(seed=S)
calls on identically configured generators produce bit-identical results
regardless of the ambient random-stream state: the whole pipeline is a
deterministic function of the seed and the configuration because the
shared stream is reset at the very start of the call. -/
theorem C2_generate_deterministic (cfg : Config) (seed : Nat) (s1 s2 : RStream) :
    generate cfg (some seed) s1 = generate cfg (some seed) s2 := rfl

/-- C3: for every valid inject call, the number of targeted transactions
equals floor(num_transactions * min(target_support / (1 - 0.7 *
noise_ratio), 1)) when noise_ratio > 0 and floor(num_transactions *
target_support) otherwise, and whenever that number is 0 the call is a
complete no-op. -/
theorem C3_num_injections_formula (numTransactions : Nat) (ts nr : ℚ) (d : Mat)
    (items : List ℤ) (s : RStream) (numItems : Nat)
    (hts : 0 < ts) (hts1 : ts ≤ 1) (hnr : 0 ≤ nr) (hnr1 : nr < 1)
    (hne : items ≠ []) (hrange : ∀ it ∈ items, 0 ≤ it ∧ it < (numItems : ℤ)) :
    ((numInjections numTransactions ts nr : ℤ) =
      if 0 < nr then ⌊(numTransactions : ℚ) * min (ts * (1 / (1 - (7 / 10) * nr))) 1⌋
      else ⌊(numTransactions : ℚ) * ts⌋) ∧
    (numInjections numTransactions ts nr = 0 →
      injectPattern d items ts nr s numTransactions numItems = (d, s, none)) := by
  have hT : (0 : ℚ) ≤ (numTransactions : ℚ) := Nat.cast_nonneg _
  constructor
  · unfold numInjections
    split_ifs with hp
    · have hcomp : 0 < 1 - nr * (7 / 10) := compensation_pos hnr hnr1
      have hx : 0 ≤ ts * (1 / (1 - nr * (7 / 10))) := by positivity
      have hq0 : 0 ≤ (numTransactions : ℚ) * min (ts * (1 / (1 - nr * (7 / 10)))) 1 :=
        mul_nonneg hT (le_min hx zero_le_one)
      rw [pyTrunc_eq_floor hq0, Int.toNat_of_nonneg (Int.floor_nonneg.mpr hq0)]
      rw [mul_comm nr (7 / 10)]
    · have hq0 : 0 ≤ (numTransactions : ℚ) * ts := mul_nonneg hT hts.le
      rw [pyTrunc_eq_floor hq0, Int.toNat_of_nonneg (Int.floor_nonneg.mpr hq0)]
  · intro hz
    have hc : checkPattern numItems items ts nr = none :=
      (checkPattern_none_iff numItems items ts nr).mpr
        ⟨hne, hrange, hts, hts1, hnr, hnr1⟩
    unfold injectPattern
    rw [hc, if_pos hz]

theorem C3_witness :
    ((0 : ℚ) < 1 / 10 ∧ (1 : ℚ) / 10 ≤ 1 ∧ (0 : ℚ) ≤ 0 ∧ (0 : ℚ) < 1 ∧
      ([0] : List ℤ) ≠ [] ∧ (∀ it ∈ ([0] : List ℤ), 0 ≤ it ∧ it < ((1 : Nat) : ℤ))) ∧
    (numInjections 5 (1 / 10) 0 = 0 →
      injectPattern zeroMat [0] (1 / 10) 0 (fun _ => 0) 5 1 =
        (zeroMat, fun _ => 0, none)) :=
  ⟨⟨of_decide_eq_true (by with_unfolding_all rfl),
    of_decide_eq_true (by with_unfolding_all rfl),
    of_decide_eq_true (by with_unfolding_all rfl),
    of_decide_eq_true (by with_unfolding_all rfl),
    of_decide_eq_true (by with_unfolding_all rfl),
    of_decide_eq_true (by with_unfolding_all rfl)⟩,
   (C3_num_injections_formula 5 (1 / 10) 0 zeroMat [0] (fun _ => 0) 1
      (of_decide_eq_true (by with_unfolding_all rfl))
      (of_decide_eq_true (by with_unfolding_all rfl))
      (of_decide_eq_true (by with_unfolding_all rfl))
      (of_decide_eq_true (by with_unfolding_all rfl))
      (of_decide_eq_true (by with_unfolding_all rfl))
      (of_decide_eq_true (by with_unfolding_all rfl))).2⟩

/-- C9: for every configuration, seed, and random stream, every cell of
the matrix produced by generate is exactly 0 or 1; base sampling and
pattern injection both preserve the binary invariant. -/
theorem C9_cells_binary (cfg : Config) (seed : Option Nat) (s0 : RStream) (t i : Nat) :
    resultMat (generate cfg seed s0) t i = 0 ∨ resultMat (generate cfg seed s0) t i = 1 := by
  unfold generate
  cases hpf : generateItemFrequencies cfg.num_items cfg.method cfg.dparams with
  | error e => exact Or.inl rfl
  | ok probs =>
    dsimp only
    cases hgt : generateTransactions cfg.num_transactions cfg.num_items cfg.density
        cfg.avg_transaction_len probs
        (match seed with | some sd => seedStream sd | none => s0) with
    | error e => exact Or.inl rfl
    | ok p =>
      obtain ⟨d, s1⟩ := p
      have hb : IsBinary d :=
        sampleLoop_binary cfg.num_items cfg.density cfg.avg_transaction_len probs
          cfg.num_transactions 0 zeroMat _ zeroMat_binary d s1 hgt
      dsimp only
      by_cases hpat : cfg.patterns.isEmpty
      · rw [if_pos hpat]
        exact hb t i
      · rw [if_neg hpat]
        have hcases := injectMultiple_cell_cases d cfg.patterns s1 cfg.num_transactions
          cfg.num_items t i
        have hb2 : IsBinary (injectMultiplePatterns d cfg.patterns s1 cfg.num_transactions
            cfg.num_items).1 := isBinary_of_cases d _ hb
          (injectMultiple_cell_cases d cfg.patterns s1 cfg.num_transactions cfg.num_items)
        rcases him : injectMultiplePatterns d cfg.patterns s1 cfg.num_transactions
            cfg.num_items with ⟨d2, s2, e⟩
        rw [him] at hb2
        cases e with
        | some err => exact Or.inl rfl
        | none => exact hb2 t i

/-- C10: inject never clears a cell: on a binary dataset every cell after
inject_pattern or inject_multiple_patterns is at least its previous value
(cells are only ever set to 1), and consequently the support reported by
verify_pattern for any item set never decreases across injection calls. -/
theorem C10_inject_monotone (d : Mat) (items : List ℤ) (ts nr : ℚ) (s : RStream)
    (numTransactions numItems : Nat) (ps : List PatternSpec) (hb : IsBinary d) :
    (∀ t i, d t i ≤ (injectPattern d items ts nr s numTransactions numItems).1 t i) ∧
    (∀ q, verifyPattern d numTransactions numItems q ≤
      verifyPattern (injectPattern d items ts nr s numTransactions numItems).1
        numTransactions numItems q) ∧
    (∀ t i, d t i ≤ (injectMultiplePatterns d ps s numTransactions numItems).1 t i) ∧
    (∀ q, verifyPattern d numTransactions numItems q ≤
      verifyPattern (injectMultiplePatterns d ps s numTransactions numItems).1
        numTransactions numItems q) := by
  have h1 := injectPattern_cell_cases d items ts nr s numTransactions numItems
  have h2 := injectMultiple_cell_cases d ps s numTransactions numItems
  exact ⟨cell_le_of_cases d _ hb h1,
    fun q => verifyPattern_mono d _ numTransactions numItems q (cell_one_of_cases d _ h1),
    cell_le_of_cases d _ hb h2,
    fun q => verifyPattern_mono d _ numTransactions numItems q (cell_one_of_cases d _ h2)⟩

theorem C10_witness :
    IsBinary zeroMat ∧
    (∀ t i, zeroMat t i ≤ (injectPattern zeroMat [0] 1 0 (fun _ => 0) 2 1).1 t i) :=
  ⟨zeroMat_binary,
   (C10_inject_monotone zeroMat [0] 1 0 (fun _ => 0) 2 1 [] zeroMat_binary).1⟩

/-- C6: an inject call whose arguments violate a precondition raises an
error and leaves the dataset unchanged, and inside inject_multiple the
first invalid pattern aborts the remaining sequence while the patterns
already applied before it remain applied (fail-fast, no rollback). -/
theorem C6_validation_fail_fast (d : Mat) (s : RStream) (numTransactions numItems : Nat)
    (p : PatternSpec) (ps1 ps2 : List PatternSpec)
    (hbad : ¬ SpecValid numItems p) (hv : ∀ q ∈ ps1, SpecValid numItems q) :
    ∃ e, injectPattern d p.items p.target_support (p.noise_ratio.getD 0) s
        numTransactions numItems = (d, s, some e) ∧
      injectMultiplePatterns d (ps1 ++ p :: ps2) s numTransactions numItems =
        ((injectMultiplePatterns d ps1 s numTransactions numItems).1,
         (injectMultiplePatterns d ps1 s numTransactions numItems).2.1, some e) ∧
      (injectMultiplePatterns d ps1 s numTransactions numItems).2.2 = none := by
  have hv' : ∀ q ∈ ps1, checkPattern numItems q.items q.target_support
      (q.noise_ratio.getD 0) = none := fun q hq =>
    (checkPattern_none_iff numItems q.items q.target_support (q.noise_ratio.getD 0)).mpr
      (hv q hq)
  obtain ⟨e, he⟩ : ∃ e, checkPattern numItems p.items p.target_support
      (p.noise_ratio.getD 0) = some e := by
    cases hcp : checkPattern numItems p.items p.target_support (p.noise_ratio.getD 0) with
    | none =>
      exact absurd ((checkPattern_none_iff numItems p.items p.target_support
        (p.noise_ratio.getD 0)).mp hcp) hbad
    | some e => exact ⟨e, rfl⟩
  have herr : ∀ d' : Mat, ∀ s' : RStream,
      injectPattern d' p.items p.target_support (p.noise_ratio.getD 0) s'
        numTransactions numItems = (d', s', some e) := by
    intro d' s'
    unfold injectPattern
    rw [he]
  refine ⟨e, herr d s, ?_, injectMultiple_valid_none d ps1 s numTransactions numItems hv'⟩
  rw [injectMultiple_append_valid d ps1 (p :: ps2) s numTransactions numItems hv']
  simp only [injectMultiplePatterns, herr]

theorem C6_witness :
    (¬ SpecValid 1 (⟨"bad", [0], 2, none⟩ : PatternSpec)) ∧
    (∀ q ∈ [(⟨"ok", [0], 1, none⟩ : PatternSpec)], SpecValid 1 q) ∧
    (∃ e, injectPattern zeroMat [0] 2 0 (fun _ => 0) 2 1 = (zeroMat, fun _ => 0, some e) ∧
      injectMultiplePatterns zeroMat
          ([(⟨"ok", [0], 1, none⟩ : PatternSpec)] ++
            (⟨"bad", [0], 2, none⟩ : PatternSpec) :: []) (fun _ => 0) 2 1 =
        ((injectMultiplePatterns zeroMat [(⟨"ok", [0], 1, none⟩ : PatternSpec)]
            (fun _ => 0) 2 1).1,
         (injectMultiplePatterns zeroMat [(⟨"ok", [0], 1, none⟩ : PatternSpec)]
            (fun _ => 0) 2 1).2.1, some e) ∧
      (injectMultiplePatterns zeroMat [(⟨"ok", [0], 1, none⟩ : PatternSpec)]
          (fun _ => 0) 2 1).2.2 = none) := by
  have hbad : ¬ SpecValid 1 (⟨"bad", [0], 2, none⟩ : PatternSpec) := fun h =>
    absurd h.2.2.2.1 (of_decide_eq_true (by with_unfolding_all rfl))
  have hv : ∀ q ∈ [(⟨"ok", [0], 1, none⟩ : PatternSpec)], SpecValid 1 q := by
    intro q hq
    rw [List.mem_singleton] at hq
    subst hq
    exact ⟨of_decide_eq_true (by with_unfolding_all rfl),
      of_decide_eq_true (by with_unfolding_all rfl),
      of_decide_eq_true (by with_unfolding_all rfl),
      of_decide_eq_true (by with_unfolding_all rfl),
      of_decide_eq_true (by with_unfolding_all rfl),
      of_decide_eq_true (by with_unfolding_all rfl)⟩
  exact ⟨hbad, hv, C6_validation_fail_fast zeroMat (fun _ => 0) 2 1
    (⟨"bad", [0], 2, none⟩ : PatternSpec) [(⟨"ok", [0], 1, none⟩ : PatternSpec)] []
    hbad hv⟩

theorem injectPattern_run (d : Mat) (items : List ℤ) (ts nr : ℚ) (s : RStream)
    (numTransactions numItems : Nat)
    (hc : checkPattern numItems items ts nr = none)
    (hn : numInjections numTransactions ts nr ≠ 0)
    (hle : numInjections numTransactions ts nr ≤ numTransactions) :
    injectPattern d items ts nr s numTransactions numItems =
      ((injectWrites d (pickFrom (numInjections numTransactions ts nr)
          (List.range numTransactions) s) items nr
          (shiftS s (numInjections numTransactions ts nr))).1,
       (injectWrites d (pickFrom (numInjections numTransactions ts nr)
          (List.range numTransactions) s) items nr
          (shiftS s (numInjections numTransactions ts nr))).2, none) := by
  unfold injectPattern
  rw [hc, if_neg hn]
  unfold choiceU
  rw [if_pos hle]

theorem verify_zeroMat (numTransactions numItems : Nat) :
    verifyPattern zeroMat numTransactions numItems [5, 10, 15] = 0 := by
  unfold verifyPattern
  rw [if_neg (by simp)]
  have hz : (List.range numTransactions).countP
      (fun t => ([5, 10, 15] : List ℤ).all
        (fun it => decide (zeroMat t (colIdx numItems it) = 1))) = 0 := by
    rw [List.countP_eq_zero]
    intro t _
    simp [zeroMat]
  rw [hz]
  simp

theorem verify_indicator (rows : List Nat) (numTransactions : Nat) (M : Mat)
    (hnd : rows.Nodup) (hb : ∀ x ∈ rows, x < numTransactions)
    (hM : ∀ a b, M a b =
      if a ∈ rows ∧ ∃ it ∈ ([5, 10, 15] : List ℤ), it.toNat = b then 1 else 0) :
    verifyPattern M numTransactions 50 [5, 10, 15] =
      (rows.length : ℚ) / (numTransactions : ℚ) := by
  unfold verifyPattern
  rw [if_neg (by simp)]
  have hcong : (List.range numTransactions).countP
      (fun t => ([5, 10, 15] : List ℤ).all
        (fun it => decide (M t (colIdx 50 it) = 1))) =
      (List.range numTransactions).countP (fun t => decide (t ∈ rows)) := by
    apply List.countP_congr
    intro t _
    simp only [List.all_eq_true, decide_eq_true_eq]
    constructor
    · intro hall
      have h5 := hall (5 : ℤ) (by simp)
      rw [hM t (colIdx 50 5)] at h5
      by_cases ht : t ∈ rows
      · exact ht
      · rw [if_neg] at h5
        · cases h5
        · rintro ⟨hmem, -⟩
          exact ht hmem
    · intro ht it hit
      rw [hM t (colIdx 50 it)]
      rw [if_pos]
      refine ⟨ht, it, hit, ?_⟩
      fin_cases hit <;> rfl
  rw [hcong, countP_mem_eq_length rows numTransactions hnd hb]

/-- C4 counterexample: the uniform keep-draw np.random.random() has range
[0,1), so a random stream whose uniform draws are all exactly 0 makes
every per-item test random() > 0 fail even at noise_ratio 0; on the
1000 x 50 all-zero matrix the claimed exact support 0.1 is then not
reached (verify returns 0), refuting the claim for every random stream. -/
theorem C4_counterexample :
    verifyPattern (injectPattern zeroMat [5, 10, 15] (1 / 10) 0 (fun _ => 0)
      1000 50).1 1000 50 [5, 10, 15] ≠ 1 / 10 := by
  have hc : checkPattern 50 [5, 10, 15] (1 / 10) 0 = none :=
    of_decide_eq_true (by with_unfolding_all rfl)
  have hn : numInjections 1000 (1 / 10) 0 ≠ 0 :=
    of_decide_eq_true (by with_unfolding_all rfl)
  have hle : numInjections 1000 (1 / 10) 0 ≤ 1000 :=
    of_decide_eq_true (by with_unfolding_all rfl)
  rw [injectPattern_run zeroMat [5, 10, 15] (1 / 10) 0 (fun _ => 0) 1000 50 hc hn hle]
  dsimp only
  have hnk : ∀ k, ¬ (0 : ℚ) < Int.fract
      ((shiftS (fun _ => 0) (numInjections 1000 (1 / 10) 0)) k) := by
    intro k
    simp [shiftS, Int.fract]
  rw [injectWrites_nokeep _ _ _ _ _ hnk, verify_zeroMat]
  norm_num

/-- C4 (amended): for every random stream whose uniform draws are all
non-zero — draws of value exactly 0 are the measure-zero exception that
falsifies the unqualified claim — injecting items 5, 10, 15 with target
support 0.1 and noise 0 into a 1000 x 50 all-zero matrix sets all three
items in exactly 100 distinct rows, and verify returns exactly 0.1. -/
theorem C4_amended_exact (s : RStream) (hs : ∀ k, 0 < Int.fract (s k)) :
    verifyPattern (injectPattern zeroMat [5, 10, 15] (1 / 10) 0 s 1000 50).1
      1000 50 [5, 10, 15] = 1 / 10 := by
  have hc : checkPattern 50 [5, 10, 15] (1 / 10) 0 = none :=
    of_decide_eq_true (by with_unfolding_all rfl)
  have hn : numInjections 1000 (1 / 10) 0 ≠ 0 :=
    of_decide_eq_true (by with_unfolding_all rfl)
  have hle : numInjections 1000 (1 / 10) 0 ≤ 1000 :=
    of_decide_eq_true (by with_unfolding_all rfl)
  have h100 : numInjections 1000 (1 / 10) 0 = 100 :=
    of_decide_eq_true (by with_unfolding_all rfl)
  rw [injectPattern_run zeroMat [5, 10, 15] (1 / 10) 0 s 1000 50 hc hn hle]
  dsimp only
  have hnd : (pickFrom (numInjections 1000 (1 / 10) 0) (List.range 1000) s).Nodup :=
    pickFrom_range_nodup _ 1000 s hle
  have hbd : ∀ x ∈ pickFrom (numInjections 1000 (1 / 10) 0) (List.range 1000) s,
      x < 1000 := pickFrom_range_bound _ 1000 s hle
  have hs' : ∀ k, (0 : ℚ) < Int.fract
      ((shiftS s (numInjections 1000 (1 / 10) 0)) k) := fun k => hs _
  have hM : ∀ a b, (injectWrites zeroMat
      (pickFrom (numInjections 1000 (1 / 10) 0) (List.range 1000) s) [5, 10, 15] 0
      (shiftS s (numInjections 1000 (1 / 10) 0))).1 a b =
      if a ∈ pickFrom (numInjections 1000 (1 / 10) 0) (List.range 1000) s ∧
        ∃ it ∈ ([5, 10, 15] : List ℤ), it.toNat = b then 1 else 0 :=
    fun a b => injectWrites_allkeep zeroMat _ [5, 10, 15] 0 _ hs' a b
  rw [verify_indicator _ 1000 _ hnd hbd hM, pickFrom_length, h100]
  norm_num

theorem C4_witness :
    (∀ k : Nat, (0 : ℚ) < Int.fract ((fun _ : Nat => (1 : ℚ) / 2) k)) ∧
    verifyPattern (injectPattern zeroMat [5, 10, 15] (1 / 10) 0
      (fun _ : Nat => (1 : ℚ) / 2) 1000 50).1 1000 50 [5, 10, 15] = 1 / 10 :=
  ⟨fun _ => of_decide_eq_true (by with_unfolding_all rfl),
   C4_amended_exact (fun _ : Nat => (1 : ℚ) / 2)
     (fun _ => of_decide_eq_true (by with_unfolding_all rfl))⟩

/-- C5 counterexample: the injection with noise_ratio 0.2 targets
floor(1000 * 0.1 / 0.86) = 116 rows; a random stream whose uniform draws
all exceed 0.2 keeps every item in every targeted row, so verify returns
0.116, which is not strictly below 0.1 — refuting the claim for every
random stream. -/
theorem C5_counterexample :
    ¬ (verifyPattern (injectPattern zeroMat [5, 10, 15] (1 / 10) (2 / 10)
        (fun _ : Nat => (9 : ℚ) / 10) 1000 50).1 1000 50 [5, 10, 15] < 1 / 10) := by
  have hc : checkPattern 50 [5, 10, 15] (1 / 10) (2 / 10) = none :=
    of_decide_eq_true (by with_unfolding_all rfl)
  have hn : numInjections 1000 (1 / 10) (2 / 10) ≠ 0 :=
    of_decide_eq_true (by with_unfolding_all rfl)
  have hle : numInjections 1000 (1 / 10) (2 / 10) ≤ 1000 :=
    of_decide_eq_true (by with_unfolding_all rfl)
  have h116 : numInjections 1000 (1 / 10) (2 / 10) = 116 :=
    of_decide_eq_true (by with_unfolding_all rfl)
  rw [injectPattern_run zeroMat [5, 10, 15] (1 / 10) (2 / 10)
    (fun _ : Nat => (9 : ℚ) / 10) 1000 50 hc hn hle]
  dsimp only
  have hnd : (pickFrom (numInjections 1000 (1 / 10) (2 / 10)) (List.range 1000)
      (fun _ : Nat => (9 : ℚ) / 10)).Nodup := pickFrom_range_nodup _ 1000 _ hle
  have hbd : ∀ x ∈ pickFrom (numInjections 1000 (1 / 10) (2 / 10)) (List.range 1000)
      (fun _ : Nat => (9 : ℚ) / 10), x < 1000 := pickFrom_range_bound _ 1000 _ hle
  have hs' : ∀ k, (2 : ℚ) / 10 < Int.fract
      ((shiftS (fun _ : Nat => (9 : ℚ) / 10) (numInjections 1000 (1 / 10) (2 / 10))) k) :=
    fun _ => of_decide_eq_true (by with_unfolding_all rfl)
  have hM : ∀ a b, (injectWrites zeroMat
      (pickFrom (numInjections 1000 (1 / 10) (2 / 10)) (List.range 1000)
        (fun _ : Nat => (9 : ℚ) / 10)) [5, 10, 15] (2 / 10)
      (shiftS (fun _ : Nat => (9 : ℚ) / 10) (numInjections 1000 (1 / 10) (2 / 10)))).1 a b =
      if a ∈ pickFrom (numInjections 1000 (1 / 10) (2 / 10)) (List.range 1000)
          (fun _ : Nat => (9 : ℚ) / 10) ∧
        ∃ it ∈ ([5, 10, 15] : List ℤ), it.toNat = b then 1 else 0 :=
    fun a b => injectWrites_allkeep zeroMat _ [5, 10, 15] (2 / 10) _ hs' a b
  rw [verify_indicator _ 1000 _ hnd hbd hM, pickFrom_length, h116]
  norm_num

/-- C5 (amended): with noise 0.2 the injection targets exactly 116 rows,
so for every random stream the measured support is at most 0.116, and
there exist random streams (for instance one whose keep-draws all fail)
for which verify is strictly below 0.1; the strict undershoot does not
hold for every stream, only the expectation-level statement does. -/
theorem C5_amended_undershoot :
    (∀ s : RStream,
      verifyPattern (injectPattern zeroMat [5, 10, 15] (1 / 10) (2 / 10) s 1000 50).1
        1000 50 [5, 10, 15] ≤ 116 / 1000) ∧
    verifyPattern (injectPattern zeroMat [5, 10, 15] (1 / 10) (2 / 10)
      (fun _ : Nat => 0) 1000 50).1 1000 50 [5, 10, 15] < 1 / 10 := by
  have hc : checkPattern 50 [5, 10, 15] (1 / 10) (2 / 10) = none :=
    of_decide_eq_true (by with_unfolding_all rfl)
  have hn : numInjections 1000 (1 / 10) (2 / 10) ≠ 0 :=
    of_decide_eq_true (by with_unfolding_all rfl)
  have hle : numInjections 1000 (1 / 10) (2 / 10) ≤ 1000 :=
    of_decide_eq_true (by with_unfolding_all rfl)
  have h116 : numInjections 1000 (1 / 10) (2 / 10) = 116 :=
    of_decide_eq_true (by with_unfolding_all rfl)
  constructor
  · intro s
    rw [injectPattern_run zeroMat [5, 10, 15] (1 / 10) (2 / 10) s 1000 50 hc hn hle]
    dsimp only
    have hnd : (pickFrom (numInjections 1000 (1 / 10) (2 / 10)) (List.range 1000)
        s).Nodup := pickFrom_range_nodup _ 1000 _ hle
    have hbd : ∀ x ∈ pickFrom (numInjections 1000 (1 / 10) (2 / 10)) (List.range 1000) s,
        x < 1000 := pickFrom_range_bound _ 1000 _ hle
    unfold verifyPattern
    rw [if_neg (by simp)]
    have hmono : (List.range 1000).countP
        (fun t => ([5, 10, 15] : List ℤ).all (fun it => decide
          ((injectWrites zeroMat (pickFrom (numInjections 1000 (1 / 10) (2 / 10))
            (List.range 1000) s) [5, 10, 15] (2 / 10)
            (shiftS s (numInjections 1000 (1 / 10) (2 / 10)))).1 t (colIdx 50 it) = 1))) ≤
        (List.range 1000).countP (fun t => decide (t ∈
          pickFrom (numInjections 1000 (1 / 10) (2 / 10)) (List.range 1000) s)) := by
      apply List.countP_mono_left
      intro t _ hp
      simp only [List.all_eq_true, decide_eq_true_eq] at hp
      apply decide_eq_true
      by_contra ht
      have h5 := hp (5 : ℤ) (by simp)
      rw [injectWrites_notrow _ _ _ _ _ _ _ ht] at h5
      cases h5
    have hcount : (List.range 1000).countP (fun t => decide (t ∈
        pickFrom (numInjections 1000 (1 / 10) (2 / 10)) (List.range 1000) s)) = 116 := by
      rw [countP_mem_eq_length _ 1000 hnd hbd, pickFrom_length, h116]
    have h1000 : ((1000 : ℕ) : ℚ) = 1000 := by norm_num
    rw [h1000, div_le_div_iff_of_pos_right (by norm_num : (0 : ℚ) < 1000)]
    rw [hcount] at hmono
    exact_mod_cast hmono
  · have hnk : ∀ k, ¬ (2 : ℚ) / 10 < Int.fract
        ((shiftS (fun _ : Nat => 0) (numInjections 1000 (1 / 10) (2 / 10))) k) := by
      intro k
      simp [shiftS, Int.fract]
      norm_num
    rw [injectPattern_run zeroMat [5, 10, 15] (1 / 10) (2 / 10) (fun _ : Nat => 0)
      1000 50 hc hn hle]
    dsimp only
    rw [injectWrites_nokeep _ _ _ _ _ hnk, verify_zeroMat]
    norm_num

theorem nzIndices_one_zero : nzIndices [(1 : ℝ), 0] 2 = [0] := by
  have hf0 : (decide (([(1 : ℝ), 0].getD 0 0) ≠ 0)) = true :=
    decide_eq_true (by norm_num)
  have hf1 : (decide (([(1 : ℝ), 0].getD 1 0) ≠ 0)) = false :=
    decide_eq_false (by norm_num)
  unfold nzIndices
  have hrange : List.range 2 = [0, 1] := rfl
  rw [hrange]
  simp only [List.filter_cons, List.filter_nil, hf0, hf1]
  rfl

theorem transLen_density_two : (transLen 2 1 none (fun _ : Nat => 0)).1 = 2 := by
  with_unfolding_all rfl

/-- C1 counterexample: sampling a transaction of length 2 from the
two-item probability vector [1, 0] — one non-zero entry, the claim's own
example — raises the numpy error instead of degrading gracefully. -/
theorem C1_counterexample :
    generateTransactions 1 2 1 none [(1 : ℝ), 0] (fun _ : Nat => 0) =
      .error "Fewer non-zero entries in p than size" := by
  unfold generateTransactions
  show sampleLoop 2 1 none [(1 : ℝ), 0] (0 + 1) 0 zeroMat (fun _ : Nat => 0) =
    .error "Fewer non-zero entries in p than size"
  unfold sampleLoop choiceW
  rw [nzIndices_one_zero]
  have hlt : ¬ (transLen 2 1 none (fun _ : Nat => 0)).1 ≤ ([0] : List Nat).length := by
    rw [transLen_density_two]
    simp
  rw [if_neg hlt]

/-- C1 (amended): whenever the density-branch transaction length exceeds
the number of non-zero entries of the item-probability vector, base
transaction sampling raises the numpy error (it does not complete
gracefully). -/
theorem C1_amended_raises (numTransactions numItems : Nat) (density : ℚ)
    (probs : List ℝ) (s : RStream) (hT : 0 < numTransactions)
    (hgt : (nzIndices probs numItems).length < (transLen numItems density none s).1) :
    generateTransactions numTransactions numItems density none probs s =
      .error "Fewer non-zero entries in p than size" := by
  obtain ⟨k, rfl⟩ : ∃ k, numTransactions = k + 1 := ⟨numTransactions - 1, by omega⟩
  unfold generateTransactions sampleLoop choiceW
  rw [if_neg (by omega)]

theorem C1_witness :
    0 < 1 ∧
    (nzIndices [(1 : ℝ), 0] 2).length < (transLen 2 1 none (fun _ : Nat => 0)).1 ∧
    generateTransactions 1 2 1 none [(1 : ℝ), 0] (fun _ : Nat => 0) =
      .error "Fewer non-zero entries in p than size" := by
  have h2 : (nzIndices [(1 : ℝ), 0] 2).length < (transLen 2 1 none (fun _ : Nat => 0)).1 := by
    rw [nzIndices_one_zero, transLen_density_two]
    simp
  exact ⟨Nat.one_pos, h2,
    C1_amended_raises 1 2 1 [(1 : ℝ), 0] (fun _ : Nat => 0) Nat.one_pos h2⟩

theorem engine_random (n : Nat) (p : DParams) :
    generateItemFrequencies n "random" p = .ok (randomDistribution n) := by
  unfold generateItemFrequencies
  rw [if_pos rfl]

theorem engine_zipf (n : Nat) (p : DParams) :
    generateItemFrequencies n "zipf" p = .ok (zipfDistribution n p) := by
  unfold generateItemFrequencies
  rw [if_neg (by decide), if_pos rfl]

theorem engine_normal (n : Nat) (p : DParams) :
    generateItemFrequencies n "normal" p = .ok (normalDistribution n p) := by
  unfold generateItemFrequencies
  rw [if_neg (by decide), if_neg (by decide), if_pos rfl]

theorem engine_exponential (n : Nat) (p : DParams) :
    generateItemFrequencies n "exponential" p = .ok (exponentialDistribution n p) := by
  unfold generateItemFrequencies
  rw [if_neg (by decide), if_neg (by decide), if_neg (by decide), if_pos rfl]

theorem engine_unknown (n : Nat) (p : DParams) (m : String)
    (hm : m ∉ ["random", "zipf", "normal", "exponential"]) :
    generateItemFrequencies n m p = .error ("Unknown distribution method: " ++ m) := by
  unfold generateItemFrequencies
  rw [if_neg, if_neg, if_neg, if_neg]
  · intro h
    exact hm (by rw [h]; simp)
  · intro h
    exact hm (by rw [h]; simp)
  · intro h
    exact hm (by rw [h]; simp)
  · intro h
    exact hm (by rw [h]; simp)

theorem linspace_zero_one_two : linspace 0 1 2 = [0, 1] := by
  unfold linspace
  rw [if_neg (by norm_num)]
  have hr : List.range 2 = [0, 1] := rfl
  rw [hr]
  simp only [List.map_cons, List.map_nil]
  norm_num

theorem normalDistribution_neg_std :
    normalDistribution 2 ⟨none, none, some (-1), none⟩ = [0, 0] := by
  unfold normalDistribution
  have hσ : ((((⟨none, none, some (-1), none⟩ : DParams).std.getD (1 / 5)) : ℚ) : ℝ) =
      -1 := by norm_num
  rw [hσ, linspace_zero_one_two]
  have h0 : ∀ x : ℝ, max (normPdf ((((⟨none, none, some (-1), none⟩ :
      DParams).mean.getD (1 / 2)) : ℚ) : ℝ) (-1) x) 0 = 0 := fun x =>
    max_eq_right (normPdf_neg_of_neg_std _ (-1) x (by norm_num)).le
  simp only [List.map_cons, List.map_nil, h0]
  unfold normalizeProbs
  simp

/-- C7 counterexample: with params std = -1 the normal method violates the
contract: scipy returns nan there, and in the exact-real model the clipped
density vector is all zero, so the normalized output is [0, 0], whose sum
0 is not within 1e-9 of 1 (and the method does not raise InvalidArgument).
The claim fails for such params mappings. -/
theorem C7_counterexample :
    generateItemFrequencies 2 "normal" ⟨none, none, some (-1), none⟩ = .ok [0, 0] ∧
    ¬ |(([0, 0] : List ℝ).sum) - 1| ≤ 1 / 1000000000 := by
  constructor
  · rw [engine_normal, normalDistribution_neg_std]
  · simp
    norm_num

/-- C7 (amended): for every num_items >= 1, every supported method, and
every params mapping whose method-specific numeric values are in range
(normal needs std > 0, exponential needs scale > 0; scipy yields nan
outside those ranges and the contract fails, see the counterexample), the
engine returns a vector of length num_items with non-negative entries
summing to 1 within 1e-9 relative tolerance, and every unrecognized
method name fails with the ValueError; no randomness is consumed (the
engine is a pure function of its arguments). -/
theorem C7_amended_contract (n : Nat) (method : String) (p : DParams)
    (hn : 1 ≤ n) (hm : method ∈ ["random", "zipf", "normal", "exponential"])
    (hstd : method = "normal" → 0 < p.std.getD (1 / 5))
    (hscale : method = "exponential" → 0 < p.scale.getD 1) :
    (∃ v, generateItemFrequencies n method p = .ok v ∧ v.length = n ∧
      (∀ x ∈ v, 0 ≤ x) ∧ |v.sum - 1| ≤ 1 / 1000000000) ∧
    (∀ m : String, m ∉ ["random", "zipf", "normal", "exponential"] →
      generateItemFrequencies n m p = .error ("Unknown distribution method: " ++ m)) := by
  refine ⟨?_, fun m hm' => engine_unknown n p m hm'⟩
  simp only [List.mem_cons, List.mem_singleton] at hm
  rcases hm with rfl | rfl | rfl | (rfl | h)
  · have hspec := normalized_spec (List.replicate n (1 : ℝ))
      (fun x hx => by rw [List.eq_of_mem_replicate hx]; norm_num)
      (List.length_pos.mp (by rw [List.length_replicate]; omega))
    refine ⟨randomDistribution n, engine_random n p, ?_, ?_, ?_⟩
    · unfold randomDistribution
      rw [normalizeProbs_length, List.length_replicate]
    · unfold randomDistribution
      exact hspec.1
    · unfold randomDistribution
      rw [hspec.2]
      norm_num
  · have hspec := normalized_spec
      ((List.range n).map (zipfWeight ((p.alpha.getD (11 / 10) : ℚ) : ℝ)))
      (fun x hx => by
        obtain ⟨r, -, rfl⟩ := List.mem_map.mp hx
        exact zipfWeight_pos _ r)
      (List.length_pos.mp (by rw [List.length_map, List.length_range]; omega))
    refine ⟨zipfDistribution n p, engine_zipf n p, ?_, ?_, ?_⟩
    · unfold zipfDistribution
      rw [normalizeProbs_length, List.length_map, List.length_range]
    · unfold zipfDistribution
      exact hspec.1
    · unfold zipfDistribution
      rw [hspec.2]
      norm_num
  · have hσ : (0 : ℝ) < ((p.std.getD (1 / 5) : ℚ) : ℝ) := by
      exact_mod_cast hstd rfl
    have hspec := normalized_spec
      ((linspace 0 1 n).map (fun x => max (normPdf ((p.mean.getD (1 / 2) : ℚ) : ℝ)
        ((p.std.getD (1 / 5) : ℚ) : ℝ) x) 0))
      (fun x hx => by
        obtain ⟨y, -, rfl⟩ := List.mem_map.mp hx
        exact lt_max_of_lt_left (normPdf_pos _ _ y hσ))
      (List.length_pos.mp (by rw [List.length_map, linspace_length]; omega))
    refine ⟨normalDistribution n p, engine_normal n p, ?_, ?_, ?_⟩
    · unfold normalDistribution
      rw [normalizeProbs_length, List.length_map, linspace_length]
    · unfold normalDistribution
      exact hspec.1
    · unfold normalDistribution
      rw [hspec.2]
      norm_num
  · have hsc : (0 : ℝ) < ((p.scale.getD 1 : ℚ) : ℝ) := by
      exact_mod_cast hscale rfl
    have hspec := normalized_spec
      ((linspace 0 5 n).map (fun x => exponPdf ((p.scale.getD 1 : ℚ) : ℝ) x))
      (fun x hx => by
        obtain ⟨y, hy, rfl⟩ := List.mem_map.mp hx
        exact exponPdf_pos _ y hsc (linspace_mem_nonneg 0 5 n le_rfl (by norm_num) y hy))
      (List.length_pos.mp (by rw [List.length_map, linspace_length]; omega))
    refine ⟨exponentialDistribution n p, engine_exponential n p, ?_, ?_, ?_⟩
    · unfold exponentialDistribution
      rw [normalizeProbs_length, List.length_map, linspace_length]
    · unfold exponentialDistribution
      exact hspec.1
    · unfold exponentialDistribution
      rw [hspec.2]
      norm_num
  · cases h

theorem C7_witness :
    1 ≤ 1 ∧ "random" ∈ ["random", "zipf", "normal", "exponential"] ∧
    (∃ v, generateItemFrequencies 1 "random" ⟨none, none, none, none⟩ = .ok v ∧
      v.length = 1 ∧ (∀ x ∈ v, 0 ≤ x) ∧ |v.sum - 1| ≤ 1 / 1000000000) :=
  ⟨le_refl 1, by simp,
   (C7_amended_contract 1 "random" ⟨none, none, none, none⟩ (le_refl 1) (by simp)
     (fun h => absurd h (by decide)) (fun h => absurd h (by decide))).1⟩

theorem zipfWeight_neg_one_zero : zipfWeight (-1 : ℝ) 0 = 1 := by
  unfold zipfWeight
  norm_num

theorem zipfWeight_neg_one_one : zipfWeight (-1 : ℝ) 1 = 2 := by
  unfold zipfWeight
  have h2 : ((1 + 1 : Nat) : ℝ) = 2 := by norm_num
  rw [h2, show ((-1 : ℝ)) = ((-1 : ℤ) : ℝ) by norm_num, Real.rpow_intCast]
  norm_num

/-- C8 counterexample: with params alpha = -1 the zipf vector on two items
is [1/3, 2/3]: it is strictly increasing, so it is not monotonically
non-increasing and index 0 does not carry the maximum probability; the
claim fails for params mappings with negative alpha. -/
theorem C8_counterexample :
    ¬ ((zipfDistribution 2 ⟨some (-1), none, none, none⟩).getD 1 0 ≤
       (zipfDistribution 2 ⟨some (-1), none, none, none⟩).getD 0 0) := by
  have hα : ((((⟨some (-1), none, none, none⟩ : DParams).alpha.getD (11 / 10)) : ℚ) : ℝ) =
      -1 := by norm_num
  have hsum : ((List.range 2).map (zipfWeight (-1 : ℝ))).sum = 3 := by
    have hr : List.range 2 = [0, 1] := rfl
    rw [hr]
    simp only [List.map_cons, List.map_nil, List.sum_cons, List.sum_nil]
    rw [zipfWeight_neg_one_zero, zipfWeight_neg_one_one]
    norm_num
  unfold zipfDistribution
  rw [hα, getD_normalizeProbs_map _ 2 1 (by norm_num),
    getD_normalizeProbs_map _ 2 0 (by norm_num), hsum,
    zipfWeight_neg_one_zero, zipfWeight_neg_one_one]
  norm_num

/-- C8 (amended): for every num_items >= 1 and every params mapping with
alpha >= 0 (the code default 1.1 included; negative alpha reverses the
order, see the counterexample), the zipf vector is monotonically
non-increasing in the index and index 0 carries the maximum probability. -/
theorem C8_amended_zipf_monotone (n : Nat) (p : DParams) (hn : 1 ≤ n)
    (hα : 0 ≤ p.alpha.getD (11 / 10)) :
    (∀ i j : Nat, i ≤ j → j < n →
      (zipfDistribution n p).getD j 0 ≤ (zipfDistribution n p).getD i 0) ∧
    (∀ i : Nat, i < n →
      (zipfDistribution n p).getD i 0 ≤ (zipfDistribution n p).getD 0 0) := by
  have hα' : (0 : ℝ) ≤ ((p.alpha.getD (11 / 10) : ℚ) : ℝ) := by exact_mod_cast hα
  have hsum : (0 : ℝ) < ((List.range n).map
      (zipfWeight ((p.alpha.getD (11 / 10) : ℚ) : ℝ))).sum :=
    List.sum_pos _
      (fun x hx => by
        obtain ⟨r, -, rfl⟩ := List.mem_map.mp hx
        exact zipfWeight_pos _ r)
      (List.length_pos.mp (by rw [List.length_map, List.length_range]; omega))
  have hmain : ∀ i j : Nat, i ≤ j → j < n →
      (zipfDistribution n p).getD j 0 ≤ (zipfDistribution n p).getD i 0 := by
    intro i j hij hj
    unfold zipfDistribution
    rw [getD_normalizeProbs_map _ n j hj, getD_normalizeProbs_map _ n i (by omega)]
    exact div_le_div_of_nonneg_right (zipfWeight_antitone _ hα' hij) hsum.le
  exact ⟨hmain, fun i hi => hmain 0 i (Nat.zero_le i) hi⟩

theorem C8_witness :
    1 ≤ 2 ∧ (0 : ℚ) ≤ (11 : ℚ) / 10 ∧
    (∀ i j : Nat, i ≤ j → j < 2 →
      (zipfDistribution 2 ⟨none, none, none, none⟩).getD j 0 ≤
        (zipfDistribution 2 ⟨none, none, none, none⟩).getD i 0) :=
  ⟨of_decide_eq_true (by with_unfolding_all rfl),
   of_decide_eq_true (by with_unfolding_all rfl),
   (C8_amended_zipf_monotone 2 ⟨none, none, none, none⟩
     (of_decide_eq_true (by with_unfolding_all rfl))
     (of_decide_eq_true (by with_unfolding_all rfl))).1⟩
